import Mathlib

/-!
Verification of the task persistence and derived-metrics layer of a
personal task/calendar manager.

The development shallowly embeds the task store (`taskService`) and the
dashboard aggregation logic (`computeKpis`, `lineChartData`, `pieData`)
and proves the specified properties about them.

Modelling conventions:

* Calendar dates (the `YYYY-MM-DD` strings of the source) are represented
  by their epoch day number as an `Int`.  For well-formed date strings,
  lexicographic string comparison agrees with day-number order, so the
  source's string comparisons become integer comparisons.
* Instants (`Date.now()` values) are epoch milliseconds as a `Nat`; the
  local time zone is identified with UTC, so the source's mix of
  `toISOString` (UTC) and local `get`/`set` accessors is consistent and a
  day-of-week is `(day + 4) % 7` (day 0, 1970-01-01, was a Thursday).
* The ambient clock is passed explicitly: each mutating operation takes
  the `now : Nat` at which it runs.
* `crypto.randomUUID()` is modelled by a fresh-identifier supply carried
  in the store state: `nextId` is the next identifier handed out, so ids
  are `Nat` and freshness is the counter discipline.
* `localStorage` under the single fixed key is modelled by the `Storage`
  type: the key may be absent, hold an unparseable payload (`corrupt`,
  the case where `JSON.parse` throws), or hold a task collection.
* Time-of-day strings (`HH:MM`) stay genuine `String`s; the JavaScript
  `split(':')` is modelled by an explicit splitter over the character
  list of the string.
-/

namespace TaskManager

/-- Modelled from the spec: the `TaskStatus` enumeration (the `types.ts`
module is not among the provided sources); a closed enumeration of three
values.  Statuses are represented by their names as strings because the
spec stipulates that out-of-enumeration status values can occur in stored
data and are carried through unvalidated. -/
def TaskStatus.NOT_STARTED : String := "NOT_STARTED"

/-- Modelled from the spec: second value of the `TaskStatus` enumeration. -/
def TaskStatus.IN_PROGRESS : String := "IN_PROGRESS"

/-- Modelled from the spec: third value of the `TaskStatus` enumeration. -/
def TaskStatus.COMPLETED : String := "COMPLETED"

/-- A status is one of the three enumerated `TaskStatus` values. -/
def validStatus (st : String) : Prop :=
  st = TaskStatus.NOT_STARTED ∨ st = TaskStatus.IN_PROGRESS ∨ st = TaskStatus.COMPLETED

instance (st : String) : Decidable (validStatus st) := by
  unfold validStatus; infer_instance

/-- The persisted `Task` record.  `date` is the scheduled calendar day as
an epoch day number (modelling the `YYYY-MM-DD` string), `createdAt` and
`updatedAt` are epoch milliseconds, `subtasks` is the opaque sub-item
sequence, and `title` stands for the opaque descriptive payload carried
through unchanged. -/
structure Task where
  id : Nat
  date : Int
  startTime : String
  endTime : String
  status : String
  subtasks : List String
  createdAt : Nat
  updatedAt : Nat
  title : String
deriving Repr, DecidableEq

/-- The argument of `createTask`: a `Task` minus `id`, `createdAt` and
`updatedAt`.  `endTime` uses `""` for the absent/empty case (both are
falsy under the source's `task.endTime || …`); `subtasks := none` models
an `undefined` field from a legacy caller (`task.subtasks || []` replaces
only `undefined`/`null`, since an empty array is truthy). -/
structure TaskInput where
  date : Int
  startTime : String
  endTime : String
  status : String
  subtasks : Option (List String)
  title : String
deriving Repr, DecidableEq

/-- State of the `localStorage` entry under the fixed storage key:
absent, holding a payload on which `JSON.parse` throws, or holding a
task collection. -/
inductive Storage where
  | absent
  | corrupt
  | stored (tasks : List Task)
deriving Repr, DecidableEq

/-- Store state: the storage cell plus the fresh-identifier supply
modelling `crypto.randomUUID()`. -/
structure StoreState where
  storage : Storage
  nextId : Nat
deriving Repr, DecidableEq

/-- Splits a character list at every occurrence of `sep`, mirroring the
JavaScript `String.prototype.split` with a single-character separator
(so `"".split(sep)` is `[""]` and separators at the ends produce empty
pieces). -/
def splitCharsOn (sep : Char) : List Char → List (List Char)
  | [] => [[]]
  | c :: cs =>
    if c = sep then [] :: splitCharsOn sep cs
    else
      match splitCharsOn sep cs with
      | r :: rs => (c :: r) :: rs
      | [] => [[c]]

/-- Numeric value of a digit string, mirroring `Number(...)` on the
strings that arise from splitting a well-formed `HH:MM` time; `none`
models `NaN` for a non-digit or empty piece. -/
def parseDigits : List Char → Option Nat
  | [] => none
  | cs => cs.foldl
      (fun acc c =>
        match acc with
        | some a => if c.isDigit then some (a * 10 + (c.toNat - ('0').toNat)) else none
        | none => none)
      (some 0)

/-- Renders a minute or hour count as two digits, mirroring
`n.toString().padStart(2, '0')` for `n < 100`. -/
def pad2 (n : Nat) : String :=
  if n < 10 then "0" ++ Nat.repr n else Nat.repr n

/-- The default-end-time helper: for an empty `startTime` the fixed
fallback `"10:00"`, otherwise `startTime` plus 60 minutes.  The source
parses `HH:MM` via `split(':')`, then normalises through a JavaScript
`Date` by `setHours(h); setMinutes(m + 60)`, which wraps the total
minute count modulo one day; the wrap is modelled as arithmetic modulo
1440.  (`Number` coercion of malformed pieces yields `NaN` in the
source; that case is modelled by `parseDigits` returning `none`, for
which the minute count falls back to `0`.) -/
def calculateDefaultEndTime (startTime : String) : String :=
  if startTime = "" then "10:00"
  else
    let parts := splitCharsOn ':' startTime.data
    let h := ((parts.get? 0).bind parseDigits).getD 0
    let m := ((parts.get? 1).bind parseDigits).getD 0
    let total := (h * 60 + m + 60) % 1440
    pad2 (total / 60) ++ ":" ++ pad2 (total % 60)

namespace taskService

/-- Reading the persisted collection: an absent key or an unparseable
payload is recovered to the empty collection (the source's `try`/`catch`
around `JSON.parse`). -/
def getAllTasks (storage : Storage) : List Task :=
  match storage with
  | .absent => []
  | .corrupt => []
  | .stored tasks => tasks

/-- Reading as an operation on the store state: the read returns the
collection and leaves the state untouched (the `catch` branch only logs;
nothing is written back). -/
def getAllTasksOp (s : StoreState) : List Task × StoreState :=
  (getAllTasks s.storage, s)

/-- Persisting the full collection under the fixed key. -/
def saveAllTasks (tasks : List Task) (s : StoreState) : StoreState :=
  { s with storage := .stored tasks }

/-- Creating a task: loads the collection, builds the new record with a
fresh id, `createdAt = updatedAt = now`, the default-end-time backfill
and the empty-subtasks backfill, appends it, persists, and returns it. -/
def createTask (task : TaskInput) (now : Nat) (s : StoreState) : Task × StoreState :=
  let tasks := getAllTasks s.storage
  let newTask : Task :=
    { date := task.date
      startTime := task.startTime
      endTime := if task.endTime = "" then calculateDefaultEndTime task.startTime else task.endTime
      subtasks := task.subtasks.getD []
      status := task.status
      title := task.title
      id := s.nextId
      createdAt := now
      updatedAt := now }
  (newTask, { saveAllTasks (tasks ++ [newTask]) s with nextId := s.nextId + 1 })

/-- Updating a task: finds the record with the argument's id; if found,
replaces it in place with the argument plus a refreshed `updatedAt` and
persists; if not, the thrown `Task not found` error is modelled by the
`none` result with the state returned unchanged. -/
def updateTask (updatedTask : Task) (now : Nat) (s : StoreState) :
    Option Task × StoreState :=
  let tasks := getAllTasks s.storage
  match tasks.findIdx? (fun t => t.id == updatedTask.id) with
  | some index =>
    let newTasks := tasks.set index { updatedTask with updatedAt := now }
    (some { updatedTask with updatedAt := now }, saveAllTasks newTasks s)
  | none => (none, s)

/-- Deleting by id: keeps exactly the records whose id differs and
persists the result. -/
def deleteTask (taskId : Nat) (s : StoreState) : StoreState :=
  let tasks := getAllTasks s.storage
  saveAllTasks (tasks.filter (fun t => t.id != taskId)) s

end taskService

/-- An invocation of one of the three mutators, paired with the clock
value at which it runs (delete does not read the clock). -/
inductive Op where
  | create (input : TaskInput) (now : Nat)
  | update (t : Task) (now : Nat)
  | delete (id : Nat)
deriving Repr, DecidableEq

/-- Effect of one operation on the store state. -/
def applyOp (s : StoreState) : Op → StoreState
  | .create input now => (taskService.createTask input now s).2
  | .update t now => (taskService.updateTask t now s).2
  | .delete id => taskService.deleteTask id s

/-- The initial state: nothing ever stored. -/
def initialState : StoreState := { storage := .absent, nextId := 0 }

/-- Running a sequence of operations from the initial (empty) state. -/
def runOps (ops : List Op) : StoreState :=
  ops.foldl applyOp initialState

/-- Caller contract for an operation, as the spec intends it: arguments
carry a status from the closed enumeration (the TypeScript type of the
arguments), and an update argument's `createdAt` is not in the future of
the clock at which the update runs (it originates from a past creation). -/
def Op.ok : Op → Prop
  | .create input _ => validStatus input.status
  | .update t now => validStatus t.status ∧ t.createdAt ≤ now
  | .delete _ => True

/-- Milliseconds per day. -/
def msPerDay : Nat := 86400000

/-- Calendar day (epoch day number) of an epoch-millisecond instant;
this is the day named by `toISOString().split('T')[0]`. -/
def epochDay (ms : Nat) : Int :=
  ((ms / msPerDay : Nat) : Int)

/-- Day of week of an epoch day, `0` (Sunday) to `6` (Saturday); epoch
day 0 was a Thursday (index 4).  This is `Date.prototype.getDay` under
the UTC-as-local convention. -/
def dayOfWeek (day : Int) : Int :=
  (day + 4) % 7

/-- KPI summary computed by the dashboard.  `notStarted`, `inProgress`
and `completed` are the three entries of the source's `byStatus` map,
which is keyed by exactly the three enumerated statuses. -/
structure Kpis where
  total : Nat
  notStarted : Nat
  inProgress : Nat
  completed : Nat
  overdue : Nat
  todayCount : Nat
  weekCount : Nat
deriving Repr, DecidableEq

/-- Body of the `tasks.forEach` loop of the KPI computation: bumps the
status counter when the status is one of the three map keys
(`byStatus[task.status] !== undefined`), then the overdue, today and
week counters.  `todayDay` is today's calendar day and `weekStart` the
Sunday of the current week; the source compares the task's calendar day,
taken at local midnight, against `startOfWeek` (Sunday 00:00:00.000) and
`endOfWeek` (Saturday 23:59:59.999), which at day granularity is
`weekStart ≤ date ≤ weekStart + 6`. -/
def kpiStep (todayDay weekStart : Int) (acc : Kpis) (task : Task) : Kpis :=
  let acc :=
    if task.status = TaskStatus.NOT_STARTED then
      { acc with notStarted := acc.notStarted + 1 }
    else if task.status = TaskStatus.IN_PROGRESS then
      { acc with inProgress := acc.inProgress + 1 }
    else if task.status = TaskStatus.COMPLETED then
      { acc with completed := acc.completed + 1 }
    else acc
  let acc :=
    if task.date < todayDay ∧ task.status ≠ TaskStatus.COMPLETED then
      { acc with overdue := acc.overdue + 1 }
    else acc
  let acc :=
    if task.date = todayDay then
      { acc with todayCount := acc.todayCount + 1 }
    else acc
  if weekStart ≤ task.date ∧ task.date ≤ weekStart + 6 then
    { acc with weekCount := acc.weekCount + 1 }
  else acc

/-- The dashboard KPI computation: `total` is the collection size and the
remaining counters accumulate over the collection relative to `now`. -/
def computeKpis (tasks : List Task) (now : Nat) : Kpis :=
  let todayDay := epochDay now
  let weekStart := todayDay - dayOfWeek todayDay
  tasks.foldl (kpiStep todayDay weekStart)
    { total := tasks.length, notStarted := 0, inProgress := 0, completed := 0,
      overdue := 0, todayCount := 0, weekCount := 0 }

/-- One point of the productivity-trend series: the calendar day it
stands for (underlying the rendered label) and the two counts. -/
structure TrendEntry where
  date : Int
  created : Nat
  completed : Nat
deriving Repr, DecidableEq

/-- The trend series of the dashboard (last 14 days): for `i` from 13
down to 0 an entry for calendar day `now - i` days, counting the tasks
whose `createdAt` falls on that day and the tasks scheduled on that day
whose status is completed. -/
def lineChartData (tasks : List Task) (now : Nat) : List TrendEntry :=
  let days := 14
  let todayDay := epochDay now
  (List.range days).reverse.map (fun (i : Nat) =>
    let dateNum := todayDay - (i : Int)
    { date := dateNum
      created := (tasks.filter (fun t => decide (epochDay t.createdAt = dateNum))).length
      completed := (tasks.filter
          (fun t => decide (t.date = dateNum ∧ t.status = TaskStatus.COMPLETED))).length })

/-- One sector of the status-distribution chart. -/
structure PieSlice where
  label : String
  value : Nat
  color : String
deriving Repr, DecidableEq

/-- The status-distribution data: the three status counts, with
zero-valued categories filtered out. -/
def pieData (k : Kpis) : List PieSlice :=
  ([ { label := "Not Started", value := k.notStarted, color := "#ef4444" },
     { label := "In Progress", value := k.inProgress, color := "#f59e0b" },
     { label := "Completed", value := k.completed, color := "#10b981" } ]
    : List PieSlice).filter (fun d => 0 < d.value)

/-- Total over the retained (nonzero) categories, the source's `reduce`. -/
def totalForPie (k : Kpis) : Nat :=
  (pieData k).foldl (fun acc cur => acc + cur.value) 0

/-- The running-angle accumulation over the pie slices: each slice
becomes `(color, start, end)` with `end - start` its percentage of
`total`, percentages as exact rationals. -/
def gradientStopsAux (total : Nat) (currentAngle : Rat) : List PieSlice → List (String × Rat × Rat)
  | [] => []
  | d :: rest =>
    let percentage : Rat := ((d.value : Rat) / (total : Rat)) * 100
    (d.color, currentAngle, currentAngle + percentage)
      :: gradientStopsAux total (currentAngle + percentage) rest

/-- The gradient stops of the pie for a KPI summary. -/
def gradientStops (k : Kpis) : List (String × Rat × Rat) :=
  gradientStopsAux (totalForPie k) 0 (pieData k)

/-- The pie background: the computed gradient when something is counted,
`none` for the fixed no-data fallback gradient
(`totalForPie > 0 ? conic-gradient(stops) : flat placeholder`). -/
def pieGradient (k : Kpis) : Option (List (String × Rat × Rat)) :=
  if 0 < totalForPie k then some (gradientStops k) else none

/-- A task record satisfies the record-level data-model invariants. -/
def TaskOk (t : Task) : Prop :=
  t.createdAt ≤ t.updatedAt ∧ validStatus t.status

/-- The store invariant: stored ids are pairwise distinct and below the
fresh-id supply, and every stored record satisfies the record-level
invariants. -/
def StoreInv (s : StoreState) : Prop :=
  (taskService.getAllTasks s.storage).Pairwise (fun a b => a.id ≠ b.id) ∧
  ∀ t ∈ taskService.getAllTasks s.storage, t.id < s.nextId ∧ TaskOk t

/-- An argument used to refute C2 as universally stated: a creation
whose status lies outside the enumeration. -/
def badInput : TaskInput :=
  { date := 0, startTime := "09:00", endTime := "10:00", status := "BOGUS",
    subtasks := some [], title := "x" }

/-- An argument used to refute C2 as universally stated: an update whose
`createdAt` lies in the future of the clock at which it runs. -/
def badUpdate : Task :=
  { id := 0, date := 0, startTime := "09:00", endTime := "10:00", status := "BOGUS",
    subtasks := [], createdAt := 100, updatedAt := 0, title := "x" }

/-- A task created exactly 15 days before the reference instant, but
scheduled on the reference day itself with completed status. -/
def lateTask : Task :=
  { id := 0, date := 15, startTime := "09:00", endTime := "10:00",
    status := TaskStatus.COMPLETED, subtasks := [], createdAt := 0,
    updatedAt := 0, title := "late" }


/-- Sample tasks and a sample store used by witness instantiations. -/
def wTask0 : Task :=
  { id := 0, date := 10, startTime := "08:00", endTime := "09:00",
    status := TaskStatus.NOT_STARTED, subtasks := [], createdAt := 1,
    updatedAt := 1, title := "a" }

/-- Second sample task for witness instantiations. -/
def wTask1 : Task :=
  { id := 1, date := 11, startTime := "12:00", endTime := "13:00",
    status := TaskStatus.IN_PROGRESS, subtasks := ["s"], createdAt := 2,
    updatedAt := 2, title := "b" }

/-- Sample store holding the two sample tasks. -/
def wState : StoreState :=
  { storage := .stored [wTask0, wTask1], nextId := 2 }


/-! Helper lemmas. -/

theorem ns_ne_ip : TaskStatus.NOT_STARTED ≠ TaskStatus.IN_PROGRESS := by decide

theorem ns_ne_c : TaskStatus.NOT_STARTED ≠ TaskStatus.COMPLETED := by decide

theorem ip_ne_c : TaskStatus.IN_PROGRESS ≠ TaskStatus.COMPLETED := by decide

/-- One `kpiStep` adds the indicator of each counted predicate to the
matching counter and leaves `total` alone. -/
theorem kpiStep_eq (d w : Int) (acc : Kpis) (t : Task) :
    kpiStep d w acc t =
      { total := acc.total
        notStarted := acc.notStarted + if t.status = TaskStatus.NOT_STARTED then 1 else 0
        inProgress := acc.inProgress + if t.status = TaskStatus.IN_PROGRESS then 1 else 0
        completed := acc.completed + if t.status = TaskStatus.COMPLETED then 1 else 0
        overdue := acc.overdue + if t.date < d ∧ t.status ≠ TaskStatus.COMPLETED then 1 else 0
        todayCount := acc.todayCount + if t.date = d then 1 else 0
        weekCount := acc.weekCount + if w ≤ t.date ∧ t.date ≤ w + 6 then 1 else 0 } := by
  unfold kpiStep
  split_ifs <;>
    simp_all [TaskStatus.NOT_STARTED, TaskStatus.IN_PROGRESS, TaskStatus.COMPLETED]

/-- Folding `kpiStep` over a collection adds the `countP` of each counted
predicate to the matching counter. -/
theorem kpiFoldl (d w : Int) (tasks : List Task) (acc : Kpis) :
    tasks.foldl (kpiStep d w) acc =
      { total := acc.total
        notStarted := acc.notStarted +
          tasks.countP (fun t => decide (t.status = TaskStatus.NOT_STARTED))
        inProgress := acc.inProgress +
          tasks.countP (fun t => decide (t.status = TaskStatus.IN_PROGRESS))
        completed := acc.completed +
          tasks.countP (fun t => decide (t.status = TaskStatus.COMPLETED))
        overdue := acc.overdue +
          tasks.countP (fun t => decide (t.date < d ∧ t.status ≠ TaskStatus.COMPLETED))
        todayCount := acc.todayCount + tasks.countP (fun t => decide (t.date = d))
        weekCount := acc.weekCount +
          tasks.countP (fun t => decide (w ≤ t.date ∧ t.date ≤ w + 6)) } := by
  induction tasks generalizing acc with
  | nil => simp
  | cons t ts ih =>
    rw [List.foldl_cons, ih, kpiStep_eq]
    simp only [List.countP_cons, decide_eq_true_eq, Kpis.mk.injEq]
    refine ⟨trivial, ?_, ?_, ?_, ?_, ?_, ?_⟩ <;> split_ifs <;> omega

/-- Splitting a separator-free list yields the single piece. -/
theorem splitCharsOn_no_sep (sep : Char) (xs : List Char) (h : sep ∉ xs) :
    splitCharsOn sep xs = [xs] := by
  induction xs with
  | nil => rfl
  | cons c cs ih =>
    have hc : ¬ c = sep := fun hc => h (hc ▸ List.mem_cons_self c cs)
    have hcs : sep ∉ cs := fun hm => h (List.mem_cons_of_mem _ hm)
    simp [splitCharsOn, hc, ih hcs]

/-- Splitting at the first separator occurrence peels off the
separator-free prefix. -/
theorem splitCharsOn_append (sep : Char) (xs ys : List Char) (h : sep ∉ xs) :
    splitCharsOn sep (xs ++ sep :: ys) = xs :: splitCharsOn sep ys := by
  induction xs with
  | nil => simp [splitCharsOn]
  | cons c cs ih =>
    have hc : ¬ c = sep := fun hc => h (hc ▸ List.mem_cons_self c cs)
    have hcs : sep ∉ cs := fun hm => h (List.mem_cons_of_mem _ hm)
    simp only [List.cons_append, splitCharsOn, if_neg hc, List.append_eq]
    rw [ih hcs]

/-- The two-digit rendering of a number below 100 contains no colon. -/
theorem pad2_no_colon : ∀ n < 100, (':') ∉ (pad2 n).data := by decide

/-- Parsing inverts the two-digit rendering below 100. -/
theorem parseDigits_pad2 : ∀ n < 100, parseDigits (pad2 n).data = some n := by decide

/-- A successful index search returns an in-range index whose element
satisfies the predicate. -/
theorem exists_getElem_of_findIdx?_some {α : Type} {p : α → Bool} {l : List α} {i : Nat}
    (h : l.findIdx? p = some i) : ∃ hi : i < l.length, p l[i] = true := by
  rcases List.findIdx?_eq_some_iff_findIdx_eq.mp h with ⟨hlen, hfi⟩
  subst hfi
  exact ⟨hlen, List.findIdx_getElem⟩

/-- Unfolding of `updateTask` in the not-found case. -/
theorem updateTask_none {t : Task} {now : Nat} {s : StoreState}
    (h : (taskService.getAllTasks s.storage).findIdx? (fun u => u.id == t.id) = none) :
    taskService.updateTask t now s = (none, s) := by
  unfold taskService.updateTask
  simp only [h]

/-- Unfolding of `updateTask` in the found case. -/
theorem updateTask_some {t : Task} {now : Nat} {s : StoreState} {i : Nat}
    (h : (taskService.getAllTasks s.storage).findIdx? (fun u => u.id == t.id) = some i) :
    taskService.updateTask t now s =
      (some { t with updatedAt := now },
       taskService.saveAllTasks
         ((taskService.getAllTasks s.storage).set i { t with updatedAt := now }) s) := by
  unfold taskService.updateTask
  simp only [h]

/-- The collection read back right after a save is the saved one. -/
theorem getAllTasks_saveAllTasks (tasks : List Task) (s : StoreState) :
    taskService.getAllTasks (taskService.saveAllTasks tasks s).storage = tasks := rfl

/-- Each gradient stop carries its slice's color, and its angular width
is the slice's share of `total`, as a percentage. -/
theorem gradientStopsAux_spec (total : Nat) (l : List PieSlice) (a : Rat) :
    (gradientStopsAux total a l).length = l.length ∧
    ∀ j (hj : j < l.length) (hj' : j < (gradientStopsAux total a l).length),
      (gradientStopsAux total a l)[j].1 = l[j].color ∧
      (gradientStopsAux total a l)[j].2.2 - (gradientStopsAux total a l)[j].2.1 =
        ((l[j].value : Rat) / (total : Rat)) * 100 := by
  induction l generalizing a with
  | nil => simp [gradientStopsAux]
  | cons d rest ih =>
    refine ⟨by simp [gradientStopsAux, (ih _).1], ?_⟩
    intro j hj hj'
    match j with
    | 0 =>
      refine ⟨rfl, ?_⟩
      show a + (d.value : Rat) / (total : Rat) * 100 - a = (d.value : Rat) / (total : Rat) * 100
      ring
    | j + 1 =>
      have hr : j < rest.length := by simpa using hj
      have hr' : j < (gradientStopsAux total (a + ((d.value : Rat) / (total : Rat)) * 100) rest).length := by
        rw [(ih _).1]; exact hr
      exact (ih _).2 j hr hr'

theorem storeInv_initial : StoreInv initialState := by
  constructor <;> simp [taskService.getAllTasks, initialState]

/-- Each well-formed operation preserves the store invariant. -/
theorem storeInv_applyOp (op : Op) (hok : op.ok) (s : StoreState) (hs : StoreInv s) :
    StoreInv (applyOp s op) := by
  obtain ⟨hpw, hmem⟩ := hs
  cases op with
  | create input now =>
    simp only [applyOp, taskService.createTask, taskService.saveAllTasks]
    constructor
    · show List.Pairwise _ (taskService.getAllTasks (Storage.stored _))
      rw [show taskService.getAllTasks (Storage.stored
            (taskService.getAllTasks s.storage ++ [_])) =
          taskService.getAllTasks s.storage ++ [_] from rfl]
      refine List.pairwise_append.mpr ⟨hpw, List.pairwise_singleton _ _, ?_⟩
      intro a ha b hb
      rw [List.mem_singleton.mp hb]
      exact Nat.ne_of_lt (hmem a ha).1
    · intro t ht
      rw [show taskService.getAllTasks (Storage.stored
            (taskService.getAllTasks s.storage ++ [_])) =
          taskService.getAllTasks s.storage ++ [_] from rfl] at ht
      rcases List.mem_append.mp ht with hold | hnew
      · obtain ⟨hid, hok'⟩ := hmem t hold
        exact ⟨Nat.lt_succ_of_lt hid, hok'⟩
      · rw [List.mem_singleton.mp hnew]
        exact ⟨Nat.lt_succ_self _, Nat.le_refl _, hok⟩
  | update t now =>
    obtain ⟨hst, hts⟩ := hok
    cases h : (taskService.getAllTasks s.storage).findIdx? (fun u => u.id == t.id) with
    | none =>
      simp only [applyOp, updateTask_none h]
      exact ⟨hpw, hmem⟩
    | some i =>
      obtain ⟨hi, hpi⟩ := exists_getElem_of_findIdx?_some h
      have hid : (taskService.getAllTasks s.storage)[i].id = t.id := by
        simpa using hpi
      have happ : applyOp s (.update t now) =
          taskService.saveAllTasks
            ((taskService.getAllTasks s.storage).set i { t with updatedAt := now }) s := by
        simp only [applyOp, updateTask_some h]
      rw [happ]
      have hnext : (taskService.saveAllTasks
          ((taskService.getAllTasks s.storage).set i { t with updatedAt := now }) s).nextId =
          s.nextId := rfl
      rw [StoreInv, getAllTasks_saveAllTasks, hnext]
      constructor
      · rw [List.pairwise_iff_getElem] at hpw ⊢
        intro a b ha hb hab
        have ha' : a < (taskService.getAllTasks s.storage).length := by
          simpa using ha
        have hb' : b < (taskService.getAllTasks s.storage).length := by
          simpa using hb
        rw [List.getElem_set, List.getElem_set]
        by_cases h1 : i = a <;> by_cases h2 : i = b
        · omega
        · rw [if_pos h1, if_neg h2]
          subst h1
          intro heq
          exact hpw i b hi hb' hab (hid.trans heq)
        · rw [if_neg h1, if_pos h2]
          subst h2
          intro heq
          exact hpw a i ha' hi hab (heq.trans hid.symm)
        · rw [if_neg h1, if_neg h2]
          exact hpw a b ha' hb' hab
      · intro u hu
        rcases List.mem_or_eq_of_mem_set hu with hold | hnew
        · exact hmem u hold
        · subst hnew
          refine ⟨?_, hts, hst⟩
          show t.id < s.nextId
          rw [← hid]
          exact (hmem _ (List.getElem_mem hi)).1
  | delete id =>
    simp only [applyOp, taskService.deleteTask, getAllTasks_saveAllTasks,
      taskService.saveAllTasks]
    constructor
    · exact hpw.filter _
    · intro u hu
      exact hmem u (List.mem_of_mem_filter hu)

/-- Running any sequence of well-formed operations from an invariant
state keeps the invariant. -/
theorem storeInv_foldl (ops : List Op) (s : StoreState)
    (hok : ∀ op ∈ ops, op.ok) (hs : StoreInv s) :
    StoreInv (ops.foldl applyOp s) := by
  induction ops generalizing s with
  | nil => exact hs
  | cons op rest ih =>
    rw [List.foldl_cons]
    exact ih _ (fun o ho => hok o (List.mem_cons_of_mem _ ho))
      (storeInv_applyOp op (hok op (List.mem_cons_self _ _)) s hs)

/-! Claim theorems. -/

/-- C1: `createTask` returns a record whose id is the freshly generated
one (and the supply advances), whose `createdAt` and `updatedAt` both
equal the current time, whose `endTime` is backfilled by the
default-end-time rule exactly when absent, whose `subtasks` default to
the empty sequence when absent, and whose remaining fields are the
input's; the persisted collection afterwards is the prior collection
with this record appended, so a subsequent read contains a record equal
to the returned one. -/
theorem createTask_spec (input : TaskInput) (now : Nat) (s : StoreState) :
    ((taskService.createTask input now s).1).id = s.nextId ∧
    ((taskService.createTask input now s).2).nextId = s.nextId + 1 ∧
    ((taskService.createTask input now s).1).createdAt = now ∧
    ((taskService.createTask input now s).1).updatedAt = now ∧
    ((taskService.createTask input now s).1).endTime =
      (if input.endTime = "" then calculateDefaultEndTime input.startTime
       else input.endTime) ∧
    ((taskService.createTask input now s).1).subtasks = input.subtasks.getD [] ∧
    ((taskService.createTask input now s).1).date = input.date ∧
    ((taskService.createTask input now s).1).startTime = input.startTime ∧
    ((taskService.createTask input now s).1).status = input.status ∧
    ((taskService.createTask input now s).1).title = input.title ∧
    taskService.getAllTasks ((taskService.createTask input now s).2).storage =
      taskService.getAllTasks s.storage ++ [(taskService.createTask input now s).1] ∧
    (taskService.createTask input now s).1 ∈
      taskService.getAllTasks ((taskService.createTask input now s).2).storage := by
  refine ⟨rfl, rfl, rfl, rfl, rfl, rfl, rfl, rfl, rfl, rfl, rfl, ?_⟩
  show _ ∈ taskService.getAllTasks s.storage ++ [(taskService.createTask input now s).1]
  exact List.mem_append_right _ (List.mem_singleton.mpr rfl)

/-- C2 counterexample: a sequence of typed `createTask`/`updateTask`
calls from the empty collection whose resulting stored task violates
both `createdAt ≤ updatedAt` (the update runs at clock 50 but supplies
`createdAt = 100`, which the code stores as-is) and status membership in
the enumeration (the code stores an out-of-range status as-is). -/
theorem storeInvariant_counterexample :
    ∃ t ∈ taskService.getAllTasks
        (runOps [Op.create badInput 0, Op.update badUpdate 50]).storage,
      ¬ (t.createdAt ≤ t.updatedAt) ∧ ¬ validStatus t.status := by decide

/-- C2 (amended): for every sequence of operations from the empty
collection in which every argument's status is one of the three
enumerated values and every update argument's `createdAt` is at most the
clock at which the update runs, every stored task has an id unique
within the collection, satisfies `createdAt ≤ updatedAt`, and has a
status among the three enumerated values. -/
theorem storeInvariant (ops : List Op) (hok : ∀ op ∈ ops, op.ok) :
    (taskService.getAllTasks (runOps ops).storage).Pairwise (fun a b => a.id ≠ b.id) ∧
    ∀ t ∈ taskService.getAllTasks (runOps ops).storage,
      t.createdAt ≤ t.updatedAt ∧ validStatus t.status := by
  have h := storeInv_foldl ops initialState hok storeInv_initial
  exact ⟨h.1, fun t ht => (h.2 t ht).2⟩

theorem storeInvariant_witness :
    (taskService.getAllTasks
        (runOps [Op.create { badInput with status := TaskStatus.NOT_STARTED } 7]).storage).Pairwise
      (fun a b => a.id ≠ b.id) ∧
    ∀ t ∈ taskService.getAllTasks
        (runOps [Op.create { badInput with status := TaskStatus.NOT_STARTED } 7]).storage,
      t.createdAt ≤ t.updatedAt ∧ validStatus t.status :=
  storeInvariant [Op.create { badInput with status := TaskStatus.NOT_STARTED } 7]
    (by intro op hop; rw [List.mem_singleton.mp hop]; exact Or.inl rfl)

/-- C3: the dashboard KPI record consists of the collection size, the
per-status counts over exactly the three enumerated statuses (so a task
with a status outside the enumeration is counted in none of them), the
overdue count (scheduled before today and not completed), the count of
tasks scheduled today, and the count of tasks scheduled in the week of
`now`; that week runs from `weekStart` to `weekStart + 6` inclusive,
where `weekStart` is a Sunday (day-of-week 0) and contains `now`'s day. -/
theorem computeKpis_spec (tasks : List Task) (now : Nat) :
    computeKpis tasks now =
      { total := tasks.length
        notStarted := tasks.countP (fun t => decide (t.status = TaskStatus.NOT_STARTED))
        inProgress := tasks.countP (fun t => decide (t.status = TaskStatus.IN_PROGRESS))
        completed := tasks.countP (fun t => decide (t.status = TaskStatus.COMPLETED))
        overdue := tasks.countP (fun t =>
          decide (t.date < epochDay now ∧ t.status ≠ TaskStatus.COMPLETED))
        todayCount := tasks.countP (fun t => decide (t.date = epochDay now))
        weekCount := tasks.countP (fun t =>
          decide (epochDay now - dayOfWeek (epochDay now) ≤ t.date ∧
            t.date ≤ epochDay now - dayOfWeek (epochDay now) + 6)) } ∧
    dayOfWeek (epochDay now - dayOfWeek (epochDay now)) = 0 ∧
    epochDay now - dayOfWeek (epochDay now) ≤ epochDay now ∧
    epochDay now ≤ epochDay now - dayOfWeek (epochDay now) + 6 := by
  refine ⟨?_, ?_, ?_, ?_⟩
  · rw [computeKpis, kpiFoldl]
    simp
  · unfold dayOfWeek
    omega
  · unfold dayOfWeek
    have : 0 ≤ epochDay now := by unfold epochDay; positivity
    omega
  · unfold dayOfWeek
    omega

/-- C4 counterexample: a task created 15 days before `now` can still
appear in a bucket of the trend series — the `completed` counts are
keyed on the scheduled date, not on `createdAt`, so this task (scheduled
today, completed) is counted in the last bucket. -/
theorem lineChartData_counterexample :
    epochDay lateTask.createdAt = epochDay (15 * msPerDay) - 15 ∧
    ∃ e ∈ lineChartData [lateTask] (15 * msPerDay),
      0 < e.completed ∧ lateTask.date = e.date ∧
        lateTask.status = TaskStatus.COMPLETED := by decide

/-- C4 (amended): the trend series has exactly 14 entries, one per
calendar day of the trailing window ending on `now`'s day, oldest
first; entry `j` stands for day `today - 13 + j`, its `created` count is
the number of tasks whose `createdAt` falls on that day, its `completed`
count the number of tasks scheduled that day with completed status; and
a task created 15 days before `now` contributes to no entry's `created`
count (its creation day differs from every entry's day). -/
theorem lineChartData_spec (tasks : List Task) (now : Nat) :
    lineChartData tasks now =
      (List.range 14).map (fun j =>
        { date := epochDay now - 13 + j
          created := tasks.countP (fun t =>
            decide (epochDay t.createdAt = epochDay now - 13 + j))
          completed := tasks.countP (fun t =>
            decide (t.date = epochDay now - 13 + j ∧
              t.status = TaskStatus.COMPLETED)) }) ∧
    ∀ t : Task, epochDay t.createdAt = epochDay now - 15 →
      ∀ e ∈ lineChartData tasks now, epochDay t.createdAt ≠ e.date := by
  constructor
  · apply List.ext_getElem
    · simp [lineChartData]
    · intro j h1 h2
      have hj : j < 14 := by simpa [lineChartData] using h1
      simp only [lineChartData, List.getElem_map, List.getElem_reverse,
        List.length_range, List.getElem_range, List.countP_eq_length_filter]
      rw [show epochDay now - ((14 - 1 - j : Nat) : Int) = epochDay now - 13 + (j : Int) by
        omega]
  · intro t ht e he
    simp only [lineChartData, List.mem_map, List.mem_reverse, List.mem_range] at he
    obtain ⟨i, hi, rfl⟩ := he
    simp only [ht]
    omega

theorem lineChartData_spec_witness :
    epochDay lateTask.createdAt ≠
      ({ date := 2, created := 0, completed := 0 } : TrendEntry).date :=
  (lineChartData_spec [] (15 * msPerDay)).2 lateTask (by decide)
    { date := 2, created := 0, completed := 0 } (by decide)

/-- C6: when `endTime` is absent at creation, the stored `endTime` is
the default-end-time rule applied to `startTime`; that rule maps the
empty `startTime` to the fixed fallback `"10:00"` and a well-formed
`HH:MM` to `HH:MM` plus 60 minutes with minute-into-hour carry and wrap
past midnight (total minutes taken modulo one day). -/
theorem defaultEndTime_spec :
    (∀ (input : TaskInput) (now : Nat) (s : StoreState), input.endTime = "" →
      ((taskService.createTask input now s).1).endTime =
        calculateDefaultEndTime input.startTime) ∧
    calculateDefaultEndTime "" = "10:00" ∧
    (∀ h m : Nat, h < 24 → m < 60 →
      calculateDefaultEndTime (pad2 h ++ ":" ++ pad2 m) =
        pad2 ((h * 60 + m + 60) % 1440 / 60) ++ ":" ++
          pad2 ((h * 60 + m + 60) % 1440 % 60)) := by
  refine ⟨?_, by decide, ?_⟩
  · intro input now s he
    show (if input.endTime = "" then calculateDefaultEndTime input.startTime
          else input.endTime) = _
    rw [if_pos he]
  · intro h m hh hm
    have hdata : (pad2 h ++ ":" ++ pad2 m).data =
        (pad2 h).data ++ (':') :: (pad2 m).data := by
      simp [String.data_append]
    have hne : ¬ (pad2 h ++ ":" ++ pad2 m) = "" := by
      intro hcon
      have hnil : (pad2 h ++ ":" ++ pad2 m).data = [] := by rw [hcon]
      rw [hdata] at hnil
      simp at hnil
    unfold calculateDefaultEndTime
    rw [if_neg hne, hdata,
      splitCharsOn_append _ _ _ (pad2_no_colon h (by omega)),
      splitCharsOn_no_sep _ _ (pad2_no_colon m (by omega))]
    simp [parseDigits_pad2 h (by omega), parseDigits_pad2 m (by omega)]

theorem defaultEndTime_spec_witness :
    calculateDefaultEndTime (pad2 23 ++ ":" ++ pad2 30) =
        pad2 ((23 * 60 + 30 + 60) % 1440 / 60) ++ ":" ++
          pad2 ((23 * 60 + 30 + 60) % 1440 % 60) ∧
    pad2 23 ++ ":" ++ pad2 30 = "23:30" ∧
    pad2 ((23 * 60 + 30 + 60) % 1440 / 60) ++ ":" ++
        pad2 ((23 * 60 + 30 + 60) % 1440 % 60) = "00:30" ∧
    ((taskService.createTask
        { date := 0, startTime := "", endTime := "", status := "NOT_STARTED",
          subtasks := none, title := "w" } 0 initialState).1).endTime =
      calculateDefaultEndTime "" :=
  ⟨defaultEndTime_spec.2.2 23 30 (by decide) (by decide), by decide, by decide,
    defaultEndTime_spec.1 _ 0 initialState rfl⟩

/-- C5: when no stored record has the argument's id, `updateTask` fails
(the `none` result models the thrown NotFound error) and the state —
hence the persisted collection — is returned unmodified; when a stored
record has the argument's id, `updateTask` returns the argument with
`updatedAt` refreshed to `now` and persists the collection with that
record replacing the matched one in place. -/
theorem updateTask_spec (t : Task) (now : Nat) (s : StoreState) :
    ((∀ u ∈ taskService.getAllTasks s.storage, u.id ≠ t.id) →
      taskService.updateTask t now s = (none, s)) ∧
    ((∃ u ∈ taskService.getAllTasks s.storage, u.id = t.id) →
      (taskService.updateTask t now s).1 = some { t with updatedAt := now } ∧
      ∃ i, ∃ hi : i < (taskService.getAllTasks s.storage).length,
        (taskService.getAllTasks s.storage)[i].id = t.id ∧
        taskService.getAllTasks ((taskService.updateTask t now s).2).storage =
          (taskService.getAllTasks s.storage).set i { t with updatedAt := now }) := by
  constructor
  · intro hno
    apply updateTask_none
    rw [List.findIdx?_eq_none_iff]
    intro u hu
    simpa using hno u hu
  · intro hex
    cases hfind : (taskService.getAllTasks s.storage).findIdx? (fun u => u.id == t.id) with
    | none =>
      exfalso
      rw [List.findIdx?_eq_none_iff] at hfind
      obtain ⟨u, hu, hid⟩ := hex
      have hfalse := hfind u hu
      simp [hid] at hfalse
    | some i =>
      obtain ⟨hi, hpi⟩ := exists_getElem_of_findIdx?_some hfind
      rw [updateTask_some hfind]
      exact ⟨rfl, i, hi, by simpa using hpi, rfl⟩

theorem updateTask_spec_witness :
    taskService.updateTask wTask0 5 initialState = (none, initialState) :=
  (updateTask_spec wTask0 5 initialState).1 (by decide)

/-- C7: reading the collection has no effect on the state, and a state
whose storage key is absent or whose payload fails to parse reads back
as the empty collection rather than an error (the read is total). -/
theorem getAllTasks_spec (s : StoreState) :
    (taskService.getAllTasksOp s).2 = s ∧
    ((s.storage = Storage.absent ∨ s.storage = Storage.corrupt) →
      (taskService.getAllTasksOp s).1 = []) := by
  refine ⟨rfl, ?_⟩
  rintro (h | h) <;> simp [taskService.getAllTasksOp, taskService.getAllTasks, h]

theorem getAllTasks_spec_witness :
    (taskService.getAllTasksOp initialState).1 = [] :=
  (getAllTasks_spec initialState).2 (Or.inl rfl)

/-- C8: `deleteTask` keeps exactly the records whose id differs from the
argument, is a no-op on the collection when no record matches (and in
particular never an error, being total), and is idempotent: a second
delete of the same id leaves the state exactly as after the first. -/
theorem deleteTask_spec (taskId : Nat) (s : StoreState) :
    taskService.getAllTasks (taskService.deleteTask taskId s).storage =
      (taskService.getAllTasks s.storage).filter (fun t => t.id != taskId) ∧
    ((∀ u ∈ taskService.getAllTasks s.storage, u.id ≠ taskId) →
      taskService.getAllTasks (taskService.deleteTask taskId s).storage =
        taskService.getAllTasks s.storage) ∧
    taskService.deleteTask taskId (taskService.deleteTask taskId s) =
      taskService.deleteTask taskId s := by
  refine ⟨rfl, ?_, ?_⟩
  · intro hno
    show (taskService.getAllTasks s.storage).filter (fun t => t.id != taskId) =
      taskService.getAllTasks s.storage
    apply List.filter_eq_self.mpr
    intro u hu
    simpa using hno u hu
  · unfold taskService.deleteTask
    simp only [getAllTasks_saveAllTasks, List.filter_filter]
    simp [taskService.saveAllTasks]

theorem deleteTask_spec_witness :
    taskService.getAllTasks (taskService.deleteTask 0 initialState).storage =
      taskService.getAllTasks initialState.storage :=
  (deleteTask_spec 0 initialState).2.1 (by decide)

/-- C9: the distribution output retains only the nonzero status
categories; the total used for percentages is the sum over those
categories (equivalently, of all three counts); each gradient stop's
angular width is its slice's value divided by that total, times 100; an
all-zero collection yields the empty distribution and the explicit
no-data gradient instead of a division by zero; and a nonzero total
yields the computed gradient. -/
theorem pieData_spec (tasks : List Task) (now : Nat) :
    (∀ d ∈ pieData (computeKpis tasks now), 0 < d.value) ∧
    totalForPie (computeKpis tasks now) =
      (computeKpis tasks now).notStarted + (computeKpis tasks now).inProgress +
        (computeKpis tasks now).completed ∧
    (∀ j (hj : j < (pieData (computeKpis tasks now)).length)
        (hj' : j < (gradientStops (computeKpis tasks now)).length),
      (gradientStops (computeKpis tasks now))[j].2.2 -
          (gradientStops (computeKpis tasks now))[j].2.1 =
        (((pieData (computeKpis tasks now))[j].value : Rat) /
          (totalForPie (computeKpis tasks now) : Rat)) * 100) ∧
    ((computeKpis tasks now).notStarted = 0 ∧ (computeKpis tasks now).inProgress = 0 ∧
        (computeKpis tasks now).completed = 0 →
      pieData (computeKpis tasks now) = [] ∧
        pieGradient (computeKpis tasks now) = none) ∧
    (0 < totalForPie (computeKpis tasks now) →
      pieGradient (computeKpis tasks now) =
        some (gradientStops (computeKpis tasks now))) := by
  set k := computeKpis tasks now with hk
  refine ⟨?_, ?_, ?_, ?_, ?_⟩
  · intro d hd
    have := (List.mem_filter.mp hd).2
    simpa using this
  · rcases Nat.eq_zero_or_pos k.notStarted with h1 | h1 <;>
      rcases Nat.eq_zero_or_pos k.inProgress with h2 | h2 <;>
      rcases Nat.eq_zero_or_pos k.completed with h3 | h3 <;>
      simp [pieData, totalForPie, List.filter_cons, List.foldl_cons, List.foldl_nil,
        h1, h2, h3]
  · intro j hj hj'
    exact ((gradientStopsAux_spec (totalForPie k) (pieData k) 0).2 j hj hj').2
  · rintro ⟨h1, h2, h3⟩
    have hempty : pieData k = [] := by
      simp [pieData, h1, h2, h3]
    refine ⟨hempty, ?_⟩
    have htot : totalForPie k = 0 := by
      rw [totalForPie, hempty]
      rfl
    simp [pieGradient, htot]
  · intro hpos
    simp [pieGradient, hpos]

theorem pieData_spec_witness :
    pieData (computeKpis [] 0) = [] ∧ pieGradient (computeKpis [] 0) = none :=
  (pieData_spec [] 0).2.2.2.1 (by decide)

/-- C10: a successful `updateTask` preserves the collection's length,
keeps every position other than the matched index unchanged (so every
record with a different id keeps its place), and puts the updated record
at the matched record's original index; `deleteTask` keeps exactly the
records with a different id — removing every duplicate of the target id —
as a sublist of the original, so the survivors keep their relative
order. -/
theorem frame_spec (s : StoreState) :
    (∀ (t : Task) (now : Nat) (i : Nat),
      (taskService.getAllTasks s.storage).findIdx? (fun u => u.id == t.id) = some i →
      (taskService.getAllTasks ((taskService.updateTask t now s).2).storage).length =
        (taskService.getAllTasks s.storage).length ∧
      ∃ hi : i < (taskService.getAllTasks s.storage).length,
        (taskService.getAllTasks s.storage)[i].id = t.id ∧
        (taskService.getAllTasks ((taskService.updateTask t now s).2).storage)[i]? =
          some { t with updatedAt := now } ∧
        ∀ j : Nat, j ≠ i →
          (taskService.getAllTasks ((taskService.updateTask t now s).2).storage)[j]? =
            (taskService.getAllTasks s.storage)[j]?) ∧
    (∀ id : Nat,
      taskService.getAllTasks (taskService.deleteTask id s).storage =
        (taskService.getAllTasks s.storage).filter (fun u => u.id != id) ∧
      (taskService.getAllTasks (taskService.deleteTask id s).storage).Sublist
        (taskService.getAllTasks s.storage) ∧
      (∀ u ∈ taskService.getAllTasks (taskService.deleteTask id s).storage,
        u.id ≠ id) ∧
      (∀ u ∈ taskService.getAllTasks s.storage, u.id ≠ id →
        u ∈ taskService.getAllTasks (taskService.deleteTask id s).storage)) := by
  constructor
  · intro t now i hfind
    obtain ⟨hi, hpi⟩ := exists_getElem_of_findIdx?_some hfind
    rw [updateTask_some hfind, getAllTasks_saveAllTasks]
    refine ⟨List.length_set _ _ _, hi, by simpa using hpi, ?_, ?_⟩
    · rw [List.getElem?_set]
      simp [hi]
    · intro j hj
      rw [List.getElem?_set]
      rw [if_neg (fun hij => hj hij.symm)]
  · intro id
    refine ⟨rfl, List.filter_sublist _, ?_, ?_⟩
    · intro u hu
      have := (List.mem_filter.mp hu).2
      simpa using this
    · intro u hu hne
      exact List.mem_filter.mpr ⟨hu, by simpa using hne⟩

theorem frame_spec_witness :
    (taskService.getAllTasks
        ((taskService.updateTask { wTask1 with title := "c" } 9 wState).2).storage).length =
      (taskService.getAllTasks wState.storage).length :=
  (((frame_spec wState).1 { wTask1 with title := "c" } 9 1) (by decide)).1

end TaskManager
